import Mathlib

/-
Verification development for the eventgen per-sample generation governor
(src/splunk_eventgen/lib/eventgentimer.py) and the byte-budget sizing
algorithm (src/splunk_eventgen/lib/plugins/generator/perdayvolumegenerator.py).

The Python source is shallowly embedded: while-loops become fuel-indexed
recursive functions returning `Except GenErr`, where `GenErr.crash` models a
Python runtime exception (ZeroDivisionError / ValueError / NameError) and
`GenErr.fuelOut` marks a loop still running when the fuel budget runs out
(the honest rendering of potential divergence).  Byte counts are natural
numbers; budgets are integers (the rater may return values below 1).  The
float comparison `targetlinesize*.9 <= sizeremaining` from the source is
rendered exactly over the integers as `9*L <= 10*r`.
-/

set_option maxHeartbeats 1000000

/-- Outcome marker for embedded Python loops: `crash` models a runtime
exception, `fuelOut` models a loop that was still running when the
observation fuel was exhausted (potential divergence). -/
inductive GenErr where
  | crash : GenErr
  | fuelOut : GenErr
deriving DecidableEq, Repr

/-! ## PerDayVolumeGenerator.gen (perdayvolumegenerator.py, lines 26-69)

Events are an abstract type `α`; `rawLen e` embeds `len(e['_raw'])`.
Each of the three policy branches of `gen` is one fuel-indexed loop.
-/

/-- Embeds the sequential ("simple replay in order") branch of
`PerDayVolumeGenerator.gen`, lines 48-68: starting from `linecount` and
accumulated size `currentreadsize`, while `currentreadsize <= size`: pick
`sampleDict[linecount % linesinfile]` (ZeroDivisionError when the pool is
empty), break when `size < targetlinesize`, admit when
`targetlinesize <= sizeremaining or targetlinesize*.9 <= sizeremaining`,
else break.  Returns the events admitted from this point on. -/
def seqLoop {α : Type} (sampleDict : List α) (rawLen : α → Nat) (size : Int) :
    Nat → Nat → Int → Except GenErr (List α)
  | 0, _, _ => .error .fuelOut
  | fuel+1, linecount, currentreadsize =>
    if currentreadsize ≤ size then
      if h : sampleDict.length = 0 then
        .error .crash
      else
        let target := sampleDict.get ⟨linecount % sampleDict.length,
          Nat.mod_lt _ (Nat.pos_of_ne_zero h)⟩
        let targetlinesize : Int := rawLen target
        if size < targetlinesize then
          .ok []
        else if targetlinesize ≤ size - currentreadsize ∨
            9 * targetlinesize ≤ 10 * (size - currentreadsize) then
          (seqLoop sampleDict rawLen size fuel (linecount+1)
            (currentreadsize + targetlinesize)).map (target :: ·)
        else
          .ok []
    else .ok []

/-- Embeds the `randomizeEvents` branch of `PerDayVolumeGenerator.gen`,
lines 30-36: while `currentSize < size`, append
`sampleDict[random.randint(0, sdlen-1)]` (ValueError when the pool is
empty).  The random draw is supplied by the oracle `pick` (one index per
step, reduced modulo the pool length). -/
def randomLoop {α : Type} (sampleDict : List α) (rawLen : α → Nat)
    (pick : Nat → Nat) (size : Int) :
    Nat → Nat → Int → Except GenErr (List α)
  | 0, _, _ => .error .fuelOut
  | fuel+1, step, currentSize =>
    if currentSize < size then
      if h : sampleDict.length = 0 then
        .error .crash
      else
        let ev := sampleDict.get ⟨pick step % sampleDict.length,
          Nat.mod_lt _ (Nat.pos_of_ne_zero h)⟩
        (randomLoop sampleDict rawLen pick size fuel (step+1)
          (currentSize + rawLen ev)).map (ev :: ·)
    else .ok []

/-- Embeds the `bundlelines` branch of `PerDayVolumeGenerator.gen`,
lines 38-44: while `currentSize <= size`, extend the batch with the whole
`sampleDict` and add the pool's total raw length to `currentSize`. -/
def bundleLoop {α : Type} (sampleDict : List α) (rawLen : α → Nat) (size : Int) :
    Nat → Int → Except GenErr (List α)
  | 0, _ => .error .fuelOut
  | fuel+1, currentSize =>
    if currentSize ≤ size then
      let sizeofsample : Int := ((sampleDict.map rawLen).sum : Nat)
      (bundleLoop sampleDict rawLen size fuel
        (currentSize + sizeofsample)).map (sampleDict ++ ·)
    else .ok []

/-- Embeds the branch dispatch of `PerDayVolumeGenerator.gen`, lines 30-69:
`randomizeEvents` first, then `bundlelines`, else the sequential branch,
each started from the zero counters of the source. -/
def perDayVolumeGen {α : Type} (randomizeEvents bundlelines : Bool)
    (sampleDict : List α) (rawLen : α → Nat) (pick : Nat → Nat)
    (size : Int) (fuel : Nat) : Except GenErr (List α) :=
  if randomizeEvents then randomLoop sampleDict rawLen pick size fuel 0 0
  else if bundlelines then bundleLoop sampleDict rawLen size fuel 0
  else seqLoop sampleDict rawLen size fuel 0 0

/-- Definition following the words of claim C1 (and spec section 4.2,
sequential policy), for comparison with `seqLoop`: iterate the pool
cyclically from index 0; with `remaining = B - accumulated`, admit the
candidate exactly when `length ≤ remaining` or `0.9 * length ≤ remaining`,
stopping at the first candidate that fails both tests. -/
def claimSeqRule {α : Type} (pool : List α) (rawLen : α → Nat) (size : Int) :
    Nat → Nat → Int → Except GenErr (List α)
  | 0, _, _ => .error .fuelOut
  | fuel+1, idx, accumulated =>
    if h : pool.length = 0 then
      .ok []
    else
      let cand := pool.get ⟨idx % pool.length, Nat.mod_lt _ (Nat.pos_of_ne_zero h)⟩
      let len : Int := rawLen cand
      if len ≤ size - accumulated ∨ 9 * len ≤ 10 * (size - accumulated) then
        (claimSeqRule pool rawLen size fuel (idx+1) (accumulated + len)).map (cand :: ·)
      else
        .ok []

/-- Decidable equality for `Except`, used to evaluate the embedded code on
concrete inputs via `decide`. -/
instance exceptDecEq {ε α : Type} [DecidableEq ε] [DecidableEq α] :
    DecidableEq (Except ε α) := fun a b =>
  match a, b with
  | .ok x, .ok y =>
    if h : x = y then .isTrue (by rw [h]) else .isFalse (by intro hc; cases hc; exact h rfl)
  | .error x, .error y =>
    if h : x = y then .isTrue (by rw [h]) else .isFalse (by intro hc; cases hc; exact h rfl)
  | .ok _, .error _ => .isFalse (by intro hc; cases hc)
  | .error _, .ok _ => .isFalse (by intro hc; cases hc)

/-! ## Timer.real_run (eventgentimer.py, lines 87-218)

Wall-clock timestamps are integers (seconds).  `timeParserTimeMath` is
imported from `timeparser`, which is not under src/; following the spec
("Backfill config: string `[sign]<number><unit>`, parsed into a relative
time offset" and "Walk it in sub-intervals of length = sample interval"),
it is modelled as integer addition of a signed offset, so the parsed
backfill string becomes one signed integer `backfillOffset` and
`timeParserTimeMath("+", interval, "s", et)` becomes `et + interval`. -/

/-- A dispatched work item as the governor builds it: the round's budget
(`count`), and the window bounds passed to `updateCounts` (lines 134-136 and
181-183). -/
structure WItem where
  count : Int
  et : Int
  lt : Int
deriving DecidableEq, Repr

/-- Embeds the backfill walk of `Timer.real_run`, lines 128-141: while
`backfillearliest < realtime`, build one work item for the window
`[backfillearliest, backfillearliest + interval)` with the round's budget,
then advance `backfillearliest` to the window's end. -/
def backfillWalk (interval budget now : Int) : Nat → Int → Except GenErr (List WItem)
  | 0, bstart => if bstart < now then .error .fuelOut else .ok []
  | fuel+1, bstart =>
    if bstart < now then
      (backfillWalk interval budget now fuel (bstart + interval)).map
        (⟨budget, bstart, bstart + interval⟩ :: ·)
    else .ok []

/-- Specification of the windows the backfill walk produces: `n` contiguous
windows of length `interval` starting at `bstart`, each carrying `budget`. -/
def expectedWalk (interval budget : Int) : Int → Nat → List WItem
  | _, 0 => []
  | bstart, n+1 => ⟨budget, bstart, bstart + interval⟩ :: expectedWalk interval budget (bstart + interval) n

/-- Number of sub-intervals of length `I` needed to cover a span of length
`d`: the ceiling of `d / I`, and `0` when `d ≤ 0`. -/
def ceilSteps (d I : Int) : Nat := ((d + I - 1) / I).toNat

/-- Per-timer configuration, read from `self`/`self.sample`/`self.config`
in `Timer.real_run`: the tick granularity `self.time`, `sample.interval`,
whether a backfill spec is set and its parsed signed offset,
whether `sample.generator == 'perdayvolumegenerator'` (line 146),
`config.generatorWorkers`, `self.end` and `self.endts` (lines 35-36), and
`raw_event_size = self.predict_event_size()` computed once before the loop
(line 101; `none` when the sample load failed — in Python 2 an
`int < None` comparison is then `False`). -/
structure TimerCfg where
  time : Int
  interval : Int
  backfill : Bool
  backfillOffset : Int
  perDayVolume : Bool
  generatorWorkers : Nat
  endCfg : Option Int
  endts : Option Int
  rawEventSize : Option Int
deriving DecidableEq, Repr

/-- Mutable state of one `real_run` loop iteration: `self.countdown`,
`self.executions`, `self.stopping`, `sample.backfilldone`,
`previous_count_left`, the Python local variable `lt` (unbound until first
assigned, hence an `Option`), and the loop flag `end`. -/
structure TState where
  countdown : Int
  executions : Nat
  stopping : Bool
  backfilldone : Bool
  previousCountLeft : Int
  ltVar : Option Int
  ended : Bool
deriving DecidableEq, Repr

/-- External observations of one loop iteration: the global stop flag
`self.config.stopping` as read at line 105, the two `self.rater.rate()`
calls (line 107, and line 147 or 159), the wall clock
`self.sample.now(realnow=True)`, the live window from
`sample.earliestTime()`/`sample.latestTime()`, and which enqueue attempts
find the generator queue full (`qFull k` for the `k`-th `put` of the
iteration). -/
structure TickEnv where
  configStopping : Bool
  rate1 : Int
  rate2 : Int
  now : Int
  et : Int
  lt : Int
  qFull : Nat → Bool

/-- Modelled from the spec: `DispatchQueue.offer(WorkItem) -> success|full`
("Queue discipline is non-blocking offer-or-drop").  The queue object
handed to the Timer is constructed outside src/; per the spec its `put`
returns at once and raises `Full` on a full queue, which line 139/188
catches and drops.  `offerAll` keeps the items whose attempt succeeded. -/
def offerAll (qFull : Nat → Bool) (items : List WItem) : List WItem :=
  (items.enum.filter (fun p => !(qFull p.1))).map Prod.snd

/-- Embeds the end-condition evaluation of `Timer.real_run`, lines 200-213:
nothing is checked unless `self.end` is set; with `self.endts` unset the
governor stops when `executions >= int(self.end)`; otherwise it stops when
`lt >= self.endts`, reading the Python local `lt` (a `NameError`, i.e.
`crash`, when `lt` was never assigned). -/
def evalEnd (cfg : TimerCfg) (executions : Nat) (ltVar : Option Int) :
    Except GenErr Bool :=
  match cfg.endCfg with
  | none => .ok false
  | some endCount =>
    match cfg.endts with
    | none => .ok (decide (endCount ≤ (executions : Int)))
    | some ts =>
      match ltVar with
      | none => .error .crash
      | some lt => .ok (decide (ts ≤ lt))

/-- Embeds lines 196-213 of `Timer.real_run`, run after either round
branch: reset `countdown` to the sample interval, increment `executions`,
then evaluate the end condition, setting `stopping` and the loop flag
`end` when it fires. -/
def afterRound (cfg : TimerCfg) (s : TState) : Except GenErr TState :=
  let s1 : TState := { s with countdown := cfg.interval, executions := s.executions + 1 }
  match evalEnd cfg s1.executions s1.ltVar with
  | .error e => .error e
  | .ok true => .ok { s1 with stopping := true, ended := true }
  | .ok false => .ok s1

/-- Embeds the live dispatch of `Timer.real_run`, lines 161-189: assign
`et`/`lt` from the sample's time functions; when `count < 1` only log;
otherwise build one work item per configured generator worker, all with the
same budget and window, and attempt a queue `put` for each (full attempts
are dropped).  Returns the post-round state, the items built, and the items
actually enqueued. -/
def liveDispatch (cfg : TimerCfg) (e : TickEnv) (ended1 : Bool) (s : TState)
    (count : Int) : Except GenErr (TState × List WItem × List WItem) :=
  let s1 : TState := { s with ltVar := some e.lt, ended := ended1 }
  let items := if count < 1 then [] else List.replicate cfg.generatorWorkers ⟨count, e.et, e.lt⟩
  match afterRound cfg s1 with
  | .error err => .error err
  | .ok s2 => .ok (s2, items, offerAll e.qFull items)

/-- Value of the Python local `lt` after the backfill walk: the last
window's end when at least one window was produced, else its previous
binding (lines 130 and 141 leave `lt` at the final window's end). -/
def walkLtVar (items : List WItem) (old : Option Int) : Option Int :=
  match items.getLast? with
  | some it => some it.lt
  | none => old

/-- Embeds one iteration of the `while not end` loop of `Timer.real_run`,
lines 102-217: observe the stop flags (line 105-106, setting the loop flag
but not leaving the body); when `countdown <= 0` run a round —
the backfill walk (lines 111-142, budget from the first `rate()` call,
`backfilldone` set after the walk) when a backfill is pending, else the
perdayvolume leftover check (lines 146-157, `continue` on deferral, which
skips the end-condition evaluation) and live dispatch; when
`countdown > 0` sleep one granule and decrement `countdown` (lines 215-217).
Returns the new state, the work items built, and those enqueued. -/
def timerStep (cfg : TimerCfg) (e : TickEnv) (walkFuel : Nat) (s : TState) :
    Except GenErr (TState × List WItem × List WItem) :=
  let ended1 := s.ended || e.configStopping || s.stopping
  if s.countdown ≤ 0 then
    if cfg.backfill && !s.backfilldone then
      match backfillWalk cfg.interval e.rate1 e.now walkFuel (e.now + cfg.backfillOffset) with
      | .error err => .error err
      | .ok items =>
        match afterRound cfg
            { s with backfilldone := true, ltVar := walkLtVar items s.ltVar, ended := ended1 } with
        | .error err => .error err
        | .ok s2 => .ok (s2, items, offerAll e.qFull items)
    else
      if cfg.perDayVolume then
        let count := e.rate2 + s.previousCountLeft
        if (match cfg.rawEventSize with
            | none => false
            | some r => decide (count < r)) && decide (0 < count) then
          .ok ({ s with previousCountLeft := count, countdown := cfg.interval,
                        executions := s.executions + 1, ended := ended1 }, [], [])
        else
          liveDispatch cfg e ended1 { s with previousCountLeft := 0 } count
      else
        liveDispatch cfg e ended1 s e.rate2
  else
    .ok ({ s with countdown := s.countdown - cfg.time, ended := ended1 }, [], [])

/-- Embeds the `while not end` loop of `Timer.real_run` driven for at most
`fuel` iterations from tick index `t`: the loop guard is checked before
each iteration, then `timerStep` runs with that tick's environment.
Returns the final state and every work item built along the way. -/
def runTimer (cfg : TimerCfg) (envs : Nat → TickEnv) (walkFuel : Nat) :
    Nat → Nat → TState → Except GenErr (TState × List WItem)
  | 0, _, s => .ok (s, [])
  | fuel+1, t, s =>
    if s.ended then .ok (s, [])
    else
      match timerStep cfg (envs t) walkFuel s with
      | .error err => .error err
      | .ok (s', built, _) =>
        match runTimer cfg envs walkFuel fuel (t+1) s' with
        | .error err => .error err
        | .ok (sf, rest) => .ok (sf, built ++ rest)

/-! ## Token aliasing model (eventgentimer.py, lines 128-141 and 171-186)

To settle whether a work item's token sequence is an independent copy of
the sample's, mutable token sequences live in an explicit store indexed by
references: `copy.deepcopy(self.sample.tokens)` (line 176) allocates a
fresh reference initialised with the source's current contents, while
passing `sample=self.sample` (line 131, the backfill walk) hands out the
source's own reference.  A token sequence is a `List Nat`. -/

/-- Store of token sequences: `next` is the first unallocated reference. -/
structure TokHeap where
  next : Nat
  store : Nat → List Nat

/-- Reads the token sequence behind a reference. -/
def TokHeap.readH (h : TokHeap) (r : Nat) : List Nat := h.store r

/-- Mutates the token sequence behind a reference in place. -/
def TokHeap.writeH (h : TokHeap) (r : Nat) (v : List Nat) : TokHeap :=
  ⟨h.next, fun x => if x = r then v else h.store x⟩

/-- Embeds `copy.deepcopy(self.sample.tokens)` (line 176): allocate a fresh
reference holding a copy of the source's current token sequence. -/
def TokHeap.allocCopy (h : TokHeap) (src : Nat) : TokHeap × Nat :=
  (⟨h.next + 1, fun x => if x = h.next then h.store src else h.store x⟩, h.next)

/-- A work item together with the reference to the token sequence its
generator plugin instance holds. -/
structure WItemTok where
  count : Int
  et : Int
  lt : Int
  tokensRef : Nat
deriving DecidableEq, Repr

/-- Embeds the worker fan-out of `Timer.real_run`, lines 171-186: for each
of the configured generator workers, shallow-copy the sample, deep-copy its
tokens into the copy, and build that worker's item around the fresh token
reference. -/
def fanOutTok (count et lt : Int) (srcRef : Nat) :
    Nat → TokHeap → TokHeap × List WItemTok
  | 0, h => (h, [])
  | w+1, h =>
    let (h1, r) := h.allocCopy srcRef
    let (h2, rest) := fanOutTok count et lt srcRef w h1
    (h2, ⟨count, et, lt, r⟩ :: rest)

/-- Embeds the item construction of the backfill walk, line 131: each
backfill item's plugin is built from `self.sample` itself, so every item
carries the source's own token reference — no copy is made. -/
def backfillItemsTok (count : Int) (windows : List (Int × Int)) (srcRef : Nat) :
    List WItemTok :=
  windows.map (fun w => ⟨count, w.1, w.2, srcRef⟩)

/-! ## Helper lemmas about the sizing loops -/

/-- Inversion of `Except.map` at an `ok` result. -/
lemma except_map_ok {ε α β : Type} (f : α → β) (x : Except ε α) (y : β) :
    x.map f = .ok y ↔ ∃ a, x = .ok a ∧ y = f a := by
  cases x <;> simp [Except.map, eq_comm]

/-- Largest raw length in a candidate pool. -/
def maxRawLen {α : Type} (pool : List α) (rawLen : α → Nat) : Nat :=
  (pool.map rawLen).foldr max 0

lemma le_maxRawLen {α : Type} {pool : List α} {rawLen : α → Nat} {x : α}
    (hx : x ∈ pool) : rawLen x ≤ maxRawLen pool rawLen := by
  induction pool with
  | nil => cases hx
  | cons a l ih =>
    rcases List.mem_cons.mp hx with h | h
    · subst h; exact le_max_left _ _
    · exact le_trans (ih h) (le_max_right _ _)

lemma seqLoop_stop_of_gt {α : Type} {pool : List α} {rawLen : α → Nat}
    {size : Int} {fuel lc : Nat} {cur : Int} {out : List α}
    (h : size < cur) (hout : seqLoop pool rawLen size fuel lc cur = .ok out) :
    out = [] := by
  cases fuel with
  | zero => simp [seqLoop] at hout
  | succ f =>
    rw [seqLoop, if_neg (by omega)] at hout
    injection hout with h
    exact h.symm

lemma seqLoop_negSize {α : Type} (pool : List α) (rawLen : α → Nat)
    {size : Int} {fuel : Nat} (lc : Nat) (h : size < 0) (hf : 1 ≤ fuel) :
    seqLoop pool rawLen size fuel lc 0 = .ok [] := by
  cases fuel with
  | zero => omega
  | succ f => rw [seqLoop, if_neg (by omega)]

lemma bundleLoop_negSize {α : Type} (pool : List α) (rawLen : α → Nat)
    {size : Int} {fuel : Nat} (h : size < 0) (hf : 1 ≤ fuel) :
    bundleLoop pool rawLen size fuel 0 = .ok [] := by
  cases fuel with
  | zero => omega
  | succ f => rw [bundleLoop, if_neg (by omega)]

lemma randomLoop_negSize {α : Type} (pool : List α) (rawLen : α → Nat)
    (pick : Nat → Nat) {size : Int} {fuel : Nat} (step : Nat)
    (h : size ≤ 0) (hf : 1 ≤ fuel) :
    randomLoop pool rawLen pick size fuel step 0 = .ok [] := by
  cases fuel with
  | zero => omega
  | succ f => rw [randomLoop, if_neg (by omega)]

/-- The sequential loop agrees with the admission rule stated in the spec
whenever every candidate's length is positive and fits inside the budget:
under that hypothesis the `size < targetlinesize` abort of line 60 can
never fire, and the claimed rule can never admit past an exceeded budget. -/
lemma seqLoop_eq_claimRule {α : Type} (pool : List α) (rawLen : α → Nat)
    (size : Int) (hpool : pool ≠ [])
    (hall : ∀ x ∈ pool, 0 < rawLen x ∧ (rawLen x : Int) ≤ size) :
    ∀ (fuel lc : Nat) (cur : Int),
      seqLoop pool rawLen size fuel lc cur = claimSeqRule pool rawLen size fuel lc cur := by
  intro fuel
  induction fuel with
  | zero => intro lc cur; rfl
  | succ f ih =>
    intro lc cur
    have hlen : ¬ pool.length = 0 := fun h => hpool (List.length_eq_zero.mp h)
    simp only [seqLoop, claimSeqRule, dif_neg hlen]
    set tgt := pool.get ⟨lc % pool.length, Nat.mod_lt _ (Nat.pos_of_ne_zero hlen)⟩ with htgt
    have hmem : tgt ∈ pool := htgt ▸ List.get_mem _ _ _
    obtain ⟨hLpos, hLle⟩ := hall tgt hmem
    have hL1 : (1 : Int) ≤ (rawLen tgt : Int) := by exact_mod_cast hLpos
    by_cases hcur : cur ≤ size
    · rw [if_pos hcur, if_neg (show ¬ size < ((rawLen tgt : Nat) : Int) by omega)]
      by_cases hadm : ((rawLen tgt : Nat) : Int) ≤ size - cur ∨
          9 * ((rawLen tgt : Nat) : Int) ≤ 10 * (size - cur)
      · rw [if_pos hadm, if_pos hadm, ih]
      · rw [if_neg hadm, if_neg hadm]
    · rw [if_neg hcur, if_neg (show ¬ (((rawLen tgt : Nat) : Int) ≤ size - cur ∨
        9 * ((rawLen tgt : Nat) : Int) ≤ 10 * (size - cur)) by
          rintro (h | h) <;> omega)]

/-- Budget-overshoot invariant for the sequential loop: on any successful
run starting with accumulation `cur ≤ size`, ten times the final
accumulation stays within ten times the budget plus one longest candidate. -/
lemma seqLoop_total_bound {α : Type} (pool : List α) (rawLen : α → Nat)
    (size : Int) :
    ∀ (fuel lc : Nat) (cur : Int) (out : List α), cur ≤ size →
      seqLoop pool rawLen size fuel lc cur = .ok out →
      10 * (cur + ((out.map rawLen).sum : Int)) ≤
        10 * size + (maxRawLen pool rawLen : Int) := by
  intro fuel
  induction fuel with
  | zero => intro lc cur out _ hout; simp [seqLoop] at hout
  | succ f ih =>
    intro lc cur out hcur hout
    have hmax : (0 : Int) ≤ (maxRawLen pool rawLen : Int) := Int.ofNat_nonneg _
    simp only [seqLoop] at hout
    rw [if_pos hcur] at hout
    by_cases hlen : pool.length = 0
    · rw [dif_pos hlen] at hout; exact Except.noConfusion hout
    · rw [dif_neg hlen] at hout
      set tgt := pool.get ⟨lc % pool.length, Nat.mod_lt _ (Nat.pos_of_ne_zero hlen)⟩ with htgt
      have htmem : tgt ∈ pool := htgt ▸ List.get_mem _ _ _
      have htmax : (rawLen tgt : Int) ≤ (maxRawLen pool rawLen : Int) := by
        exact_mod_cast le_maxRawLen htmem
      by_cases hbig : size < ((rawLen tgt : Nat) : Int)
      · rw [if_pos hbig] at hout
        injection hout with h
        subst h
        simp; omega
      · rw [if_neg hbig] at hout
        by_cases hadm : ((rawLen tgt : Nat) : Int) ≤ size - cur ∨
            9 * ((rawLen tgt : Nat) : Int) ≤ 10 * (size - cur)
        · rw [if_pos hadm] at hout
          rw [except_map_ok] at hout
          obtain ⟨rest, hrest, hform⟩ := hout
          subst hform
          by_cases hfit : cur + (rawLen tgt : Int) ≤ size
          · have := ih (lc+1) (cur + (rawLen tgt : Int)) rest hfit hrest
            simp only [List.map_cons, List.sum_cons] at *
            push_cast at this ⊢
            omega
          · have hrest0 : rest = [] := seqLoop_stop_of_gt (by omega) hrest
            subst hrest0
            have h9 : 9 * ((rawLen tgt : Nat) : Int) ≤ 10 * (size - cur) := by
              rcases hadm with h | h
              · omega
              · exact h
            simp only [List.map_cons, List.map_nil, List.sum_cons, List.sum_nil]
            push_cast
            omega
        · rw [if_neg hadm] at hout
          injection hout with h
          subst h
          simp; omega

/-! ## Claim C1 -/

/-- C1: the claim's admission rule ("admit exactly when `length ≤ remaining`
or `0.9·length ≤ remaining`, stop at the first candidate failing both") is
falsified by the code at budget 96 and candidate lengths `[5, 100]`, whose
first candidate fits the budget: after admitting the first candidate the
remaining budget is 91 and the 0.9 tolerance admits the second
(`0.9·100 = 90 ≤ 91`, also under Python float arithmetic), but the code's
line-60 abort (`size < targetlinesize`) stops there instead, so the code
yields `[5]` where the claimed rule yields `[5, 100]`. -/
theorem c1_counterexample :
    seqLoop [5, 100] id 96 10 0 0 = .ok [5] ∧
    claimSeqRule [5, 100] id 96 10 0 0 = .ok [5, 100] ∧
    (decide (([5] : List Nat) = [5, 100])) = false := by
  refine ⟨by decide, by decide, by decide⟩

/-- C1 (amended): when every candidate's length is positive and at most B,
the sequential policy admits exactly per the claimed rule; in general the
code additionally stops, admitting nothing further, at any candidate whose
length exceeds B.  In particular, for B = 1000 and candidate lengths
`[300, 300, 300, 300]`, the batch is exactly the first three candidates,
with total length 900. -/
theorem c1_amended :
    (∀ (α : Type) (pool : List α) (rawLen : α → Nat) (size : Int)
        (fuel lc : Nat) (cur : Int), pool ≠ [] →
        (∀ x ∈ pool, 0 < rawLen x ∧ (rawLen x : Int) ≤ size) →
        seqLoop pool rawLen size fuel lc cur =
          claimSeqRule pool rawLen size fuel lc cur) ∧
    seqLoop [300, 300, 300, 300] id 1000 10 0 0 = .ok [300, 300, 300] ∧
    (([300, 300, 300].map id).sum : Int) = 900 := by
  refine ⟨fun α pool rawLen size fuel lc cur hpool hall =>
    seqLoop_eq_claimRule pool rawLen size hpool hall fuel lc cur, by decide, by decide⟩

/-- Witness for C1 (amended) at a concrete input. -/
theorem c1_amended_witness :
    seqLoop [2, 3] id 10 6 0 0 = claimSeqRule [2, 3] id 10 6 0 0 :=
  c1_amended.1 Nat [2, 3] id 10 6 0 0 (by decide) (by decide)

/-! ## Helper lemmas about the backfill walk -/

lemma ceilSteps_nonpos {d I : Int} (hI : 0 < I) (hd : d ≤ 0) : ceilSteps d I = 0 := by
  unfold ceilSteps
  have hIne : I ≠ 0 := by omega
  have hq := Int.ediv_add_emod (d + I - 1) I
  have hr0 : 0 ≤ (d + I - 1) % I := Int.emod_nonneg _ hIne
  have hrI : (d + I - 1) % I < I := Int.emod_lt_of_pos _ hI
  set q := (d + I - 1) / I with hqdef
  set r := (d + I - 1) % I with hrdef
  have hqle : I * q ≤ I - 1 - r := by omega
  have hq0 : q ≤ 0 := by
    by_contra hq1
    push_neg at hq1
    nlinarith
  omega

lemma ceilSteps_pos_succ {d I : Int} (hI : 0 < I) (hd : 0 < d) :
    ceilSteps d I = ceilSteps (d - I) I + 1 := by
  unfold ceilSteps
  have hIne : I ≠ 0 := by omega
  have h1 : d + I - 1 = (d - 1) + 1 * I := by ring
  have h2 : d - I + I - 1 = d - 1 := by ring
  rw [h1, h2, Int.add_mul_ediv_right _ _ hIne]
  have hnn : 0 ≤ (d - 1) / I := Int.ediv_nonneg (by omega) (by omega)
  omega

lemma ceilSteps_bounds {d I : Int} (hI : 0 < I) (hd : 0 < d) :
    d ≤ (ceilSteps d I : Int) * I ∧ (ceilSteps d I : Int) * I < d + I ∧
      1 ≤ ceilSteps d I := by
  unfold ceilSteps
  have hIne : I ≠ 0 := by omega
  have h1 : d + I - 1 = (d - 1) + 1 * I := by ring
  rw [h1, Int.add_mul_ediv_right _ _ hIne]
  have hq := Int.ediv_add_emod (d - 1) I
  have hr0 : 0 ≤ (d - 1) % I := Int.emod_nonneg _ hIne
  have hrI : (d - 1) % I < I := Int.emod_lt_of_pos _ hI
  set q := (d - 1) / I with hqdef
  set r := (d - 1) % I with hrdef
  have hnn : 0 ≤ q := Int.ediv_nonneg (by omega) (by omega)
  have hcast : (((q + 1).toNat : Int)) = q + 1 := by omega
  rw [hcast]
  have hmul : (q + 1) * I = I * q + I := by ring
  constructor
  · omega
  constructor
  · omega
  · omega

lemma expectedWalk_length (I b : Int) : ∀ (n : Nat) (bstart : Int),
    (expectedWalk I b bstart n).length = n := by
  intro n
  induction n with
  | zero => intro bstart; rfl
  | succ m ih => intro bstart; simp [expectedWalk, ih]

lemma expectedWalk_get (I b : Int) : ∀ (n k : Nat) (bstart : Int), k < n →
    (expectedWalk I b bstart n)[k]? =
      some ⟨b, bstart + k * I, bstart + (k + 1) * I⟩ := by
  intro n
  induction n with
  | zero => intro k bstart hk; omega
  | succ m ih =>
    intro k bstart hk
    cases k with
    | zero => simp [expectedWalk]
    | succ j =>
      have := ih j (bstart + I) (by omega)
      simp only [expectedWalk, List.getElem?_cons_succ, this]
      congr 2 <;> push_cast <;> ring

/-- The backfill walk, given enough fuel, produces exactly the
`ceilSteps (now - bstart) I` contiguous windows described by
`expectedWalk`. -/
lemma backfillWalk_eq (I b now : Int) (hI : 0 < I) :
    ∀ (fuel : Nat) (bstart : Int), (now - bstart).toNat ≤ fuel →
      backfillWalk I b now fuel bstart =
        .ok (expectedWalk I b bstart (ceilSteps (now - bstart) I)) := by
  intro fuel
  induction fuel with
  | zero =>
    intro bstart hf
    have hle : now - bstart ≤ 0 := by omega
    rw [backfillWalk, if_neg (by omega), ceilSteps_nonpos hI hle]
    rfl
  | succ f ih =>
    intro bstart hf
    by_cases h : bstart < now
    · rw [backfillWalk, if_pos h, ih (bstart + I) (by omega)]
      have hstep : ceilSteps (now - bstart) I = ceilSteps (now - (bstart + I)) I + 1 := by
        have := ceilSteps_pos_succ hI (show 0 < now - bstart by omega)
        rw [this]
        congr 1
        ring_nf
      rw [hstep]
      rfl
    · rw [backfillWalk, if_neg h,
        ceilSteps_nonpos hI (show now - bstart ≤ 0 by omega)]
      rfl

/-! ## Helper lemmas about the governor step -/

lemma afterRound_spec {cfg : TimerCfg} {s s2 : TState}
    (h : afterRound cfg s = .ok s2) :
    s2.countdown = cfg.interval ∧ s2.executions = s.executions + 1 ∧
    s2.backfilldone = s.backfilldone ∧
    s2.previousCountLeft = s.previousCountLeft ∧ s2.ltVar = s.ltVar ∧
    ((evalEnd cfg (s.executions + 1) s.ltVar = .ok true ∧
        s2.stopping = true ∧ s2.ended = true) ∨
     (evalEnd cfg (s.executions + 1) s.ltVar = .ok false ∧
        s2.stopping = s.stopping ∧ s2.ended = s.ended)) := by
  simp only [afterRound] at h
  split at h
  · exact Except.noConfusion h
  · injection h with h2
    subst h2
    exact ⟨rfl, rfl, rfl, rfl, rfl, Or.inl ⟨by assumption, rfl, rfl⟩⟩
  · injection h with h2
    subst h2
    exact ⟨rfl, rfl, rfl, rfl, rfl, Or.inr ⟨by assumption, rfl, rfl⟩⟩

lemma timerStep_sleep {cfg : TimerCfg} {e : TickEnv} {wf : Nat} {s : TState}
    (h : ¬ s.countdown ≤ 0) :
    timerStep cfg e wf s =
      .ok ({ s with countdown := s.countdown - cfg.time,
                    ended := s.ended || e.configStopping || s.stopping }, [], []) := by
  simp [timerStep, h]

lemma timerStep_live {cfg : TimerCfg} {e : TickEnv} {wf : Nat} {s : TState}
    (h1 : s.countdown ≤ 0) (h2 : (cfg.backfill && !s.backfilldone) = false)
    (h3 : cfg.perDayVolume = false) :
    timerStep cfg e wf s =
      liveDispatch cfg e (s.ended || e.configStopping || s.stopping) s e.rate2 := by
  simp [timerStep, h1, h2, h3]

lemma timerStep_defer {cfg : TimerCfg} {e : TickEnv} {wf : Nat} {s : TState}
    {r : Int} (h1 : s.countdown ≤ 0)
    (h2 : (cfg.backfill && !s.backfilldone) = false)
    (h3 : cfg.perDayVolume = true) (h4 : cfg.rawEventSize = some r)
    (h5 : e.rate2 + s.previousCountLeft < r) (h6 : 0 < e.rate2 + s.previousCountLeft) :
    timerStep cfg e wf s =
      .ok ({ s with previousCountLeft := e.rate2 + s.previousCountLeft,
                    countdown := cfg.interval,
                    executions := s.executions + 1,
                    ended := s.ended || e.configStopping || s.stopping }, [], []) := by
  simp [timerStep, h1, h2, h3, h4, h5, h6]

lemma timerStep_perday_live {cfg : TimerCfg} {e : TickEnv} {wf : Nat} {s : TState}
    (h1 : s.countdown ≤ 0) (h2 : (cfg.backfill && !s.backfilldone) = false)
    (h3 : cfg.perDayVolume = true)
    (h4 : ((match cfg.rawEventSize with
            | none => false
            | some r => decide (e.rate2 + s.previousCountLeft < r)) &&
           decide (0 < e.rate2 + s.previousCountLeft)) = false) :
    timerStep cfg e wf s =
      liveDispatch cfg e (s.ended || e.configStopping || s.stopping)
        { s with previousCountLeft := 0 } (e.rate2 + s.previousCountLeft) := by
  simp only [timerStep]
  rw [if_pos h1, h2, h3, h4]
  simp

lemma liveDispatch_spec {cfg : TimerCfg} {e : TickEnv} {ended1 : Bool}
    {s : TState} {count : Int} {out : TState × List WItem × List WItem}
    (h : liveDispatch cfg e ended1 s count = .ok out) :
    out.2.1 = (if count < 1 then []
               else List.replicate cfg.generatorWorkers ⟨count, e.et, e.lt⟩) ∧
    out.2.2 = offerAll e.qFull out.2.1 ∧
    afterRound cfg { s with ltVar := some e.lt, ended := ended1 } = .ok out.1 := by
  simp only [liveDispatch] at h
  split at h
  · exact Except.noConfusion h
  · rename_i s2 heq
    injection h with h2
    subst h2
    exact ⟨rfl, rfl, heq⟩

lemma timerStep_backfill {cfg : TimerCfg} {e : TickEnv} {wf : Nat} {s : TState}
    (h1 : s.countdown ≤ 0) (h2 : (cfg.backfill && !s.backfilldone) = true) :
    timerStep cfg e wf s =
      (match backfillWalk cfg.interval e.rate1 e.now wf (e.now + cfg.backfillOffset) with
       | .error err => .error err
       | .ok items =>
         match afterRound cfg
             { s with backfilldone := true, ltVar := walkLtVar items s.ltVar,
                      ended := s.ended || e.configStopping || s.stopping } with
         | .error err => .error err
         | .ok s2 => .ok (s2, items, offerAll e.qFull items)) := by
  simp only [timerStep]
  rw [if_pos h1, h2]
  simp

lemma timerStep_defer_bool {cfg : TimerCfg} {e : TickEnv} {wf : Nat} {s : TState}
    (h1 : s.countdown ≤ 0)
    (h2 : (cfg.backfill && !s.backfilldone) = false)
    (h3 : cfg.perDayVolume = true)
    (h4 : ((match cfg.rawEventSize with
            | none => false
            | some r => decide (e.rate2 + s.previousCountLeft < r)) &&
           decide (0 < e.rate2 + s.previousCountLeft)) = true) :
    timerStep cfg e wf s =
      .ok ({ s with previousCountLeft := e.rate2 + s.previousCountLeft,
                    countdown := cfg.interval,
                    executions := s.executions + 1,
                    ended := s.ended || e.configStopping || s.stopping }, [], []) := by
  simp only [timerStep]
  rw [if_pos h1, h2, h3, h4]
  simp

lemma afterRound_ended_mono {cfg : TimerCfg} {s1 s2 : TState}
    (h : afterRound cfg s1 = .ok s2) (he : s1.ended = true) : s2.ended = true := by
  rcases (afterRound_spec h).2.2.2.2.2 with ⟨_, _, h3⟩ | ⟨_, _, h3⟩ <;>
    simp [h3, he]

lemma runTimer_of_ended {cfg : TimerCfg} {envs : Nat → TickEnv} {wf : Nat}
    {fuel t : Nat} {s : TState} (hs : s.ended = true) :
    runTimer cfg envs wf fuel t s = .ok (s, []) := by
  cases fuel <;> simp [runTimer, hs]

lemma timerStep_backfilldone_mono {cfg : TimerCfg} {e : TickEnv} {wf : Nat}
    {s : TState} {out : TState × List WItem × List WItem}
    (h : timerStep cfg e wf s = .ok out) (hs : s.backfilldone = true) :
    out.1.backfilldone = true := by
  by_cases hcd : s.countdown ≤ 0
  · have hb : (cfg.backfill && !s.backfilldone) = false := by simp [hs]
    cases hp : cfg.perDayVolume with
    | false =>
      rw [timerStep_live hcd hb hp] at h
      have := (afterRound_spec (liveDispatch_spec h).2.2).2.2.1
      simpa [hs] using this
    | true =>
      cases hdef : ((match cfg.rawEventSize with
          | none => false
          | some r => decide (e.rate2 + s.previousCountLeft < r)) &&
          decide (0 < e.rate2 + s.previousCountLeft)) with
      | false =>
        rw [timerStep_perday_live hcd hb hp hdef] at h
        have := (afterRound_spec (liveDispatch_spec h).2.2).2.2.1
        simpa [hs] using this
      | true =>
        rw [timerStep_defer_bool hcd hb hp hdef] at h
        injection h with h2
        subst h2
        simpa using hs
  · rw [timerStep_sleep hcd] at h
    injection h with h2
    subst h2
    simpa using hs

lemma timerStep_backfill_sets {cfg : TimerCfg} {e : TickEnv} {wf : Nat}
    {s : TState} {out : TState × List WItem × List WItem}
    (h : timerStep cfg e wf s = .ok out) (hcd : s.countdown ≤ 0)
    (hbf : cfg.backfill = true) (hnd : s.backfilldone = false) :
    out.1.backfilldone = true := by
  have hb : (cfg.backfill && !s.backfilldone) = true := by simp [hbf, hnd]
  rw [timerStep_backfill hcd hb] at h
  split at h
  · exact Except.noConfusion h
  · split at h
    · exact Except.noConfusion h
    · rename_i s2 har
      injection h with h2
      subst h2
      have := (afterRound_spec har).2.2.1
      simpa using this

lemma timerStep_ended_of_stop {cfg : TimerCfg} {e : TickEnv} {wf : Nat}
    {s : TState} {out : TState × List WItem × List WItem}
    (h : timerStep cfg e wf s = .ok out)
    (hstop : e.configStopping = true ∨ s.stopping = true) : out.1.ended = true := by
  have he1 : (s.ended || e.configStopping || s.stopping) = true := by
    rcases hstop with h' | h' <;> simp [h']
  by_cases hcd : s.countdown ≤ 0
  · cases hb : (cfg.backfill && !s.backfilldone) with
    | true =>
      rw [timerStep_backfill hcd hb] at h
      split at h
      · exact Except.noConfusion h
      · split at h
        · exact Except.noConfusion h
        · rename_i s2 har
          injection h with h2
          subst h2
          exact afterRound_ended_mono har (by simpa using he1)
    | false =>
      cases hp : cfg.perDayVolume with
      | false =>
        rw [timerStep_live hcd hb hp] at h
        exact afterRound_ended_mono (liveDispatch_spec h).2.2 (by simpa using he1)
      | true =>
        cases hdef : ((match cfg.rawEventSize with
            | none => false
            | some r => decide (e.rate2 + s.previousCountLeft < r)) &&
            decide (0 < e.rate2 + s.previousCountLeft)) with
        | false =>
          rw [timerStep_perday_live hcd hb hp hdef] at h
          exact afterRound_ended_mono (liveDispatch_spec h).2.2 (by simpa using he1)
        | true =>
          rw [timerStep_defer_bool hcd hb hp hdef] at h
          injection h with h2
          subst h2
          simpa using he1
  · rw [timerStep_sleep hcd] at h
    injection h with h2
    subst h2
    simpa using he1

lemma offerAll_sublist (f : Nat → Bool) (l : List WItem) :
    (offerAll f l).Sublist l := by
  have key : ∀ (n : Nat) (l : List WItem),
      ((((List.enumFrom n l).filter (fun p => !(f p.1))).map Prod.snd)).Sublist l := by
    intro n l
    induction l generalizing n with
    | nil => simp
    | cons a t ih =>
      simp only [List.enumFrom, List.filter]
      by_cases hf : (!(f n)) = true
      · rw [hf]
        simpa using List.Sublist.cons₂ a (ih (n + 1))
      · rw [Bool.not_eq_true] at hf
        rw [hf]
        exact List.Sublist.cons a (ih (n + 1))
  simpa [offerAll, List.enum] using key 0 l

lemma liveDispatch_qFull (cfg : TimerCfg) (e : TickEnv) (ended1 : Bool)
    (s : TState) (count : Int) (f' : Nat → Bool) :
    liveDispatch cfg { e with qFull := f' } ended1 s count =
      (liveDispatch cfg e ended1 s count).map
        (fun o => (o.1, o.2.1, offerAll f' o.2.1)) := by
  simp only [liveDispatch]
  cases har : afterRound cfg { s with ltVar := some e.lt, ended := ended1 } with
  | error err => simp [har, Except.map]
  | ok s2 => simp [har, Except.map]

lemma timerStep_qFull (cfg : TimerCfg) (e : TickEnv) (wf : Nat) (s : TState)
    (f' : Nat → Bool) :
    timerStep cfg { e with qFull := f' } wf s =
      (timerStep cfg e wf s).map (fun o => (o.1, o.2.1, offerAll f' o.2.1)) := by
  by_cases hcd : s.countdown ≤ 0
  · cases hb : (cfg.backfill && !s.backfilldone) with
    | true =>
      rw [timerStep_backfill (e := { e with qFull := f' }) hcd hb,
        timerStep_backfill hcd hb]
      cases hw : backfillWalk cfg.interval e.rate1 e.now wf (e.now + cfg.backfillOffset) with
      | error err => simp [hw, Except.map]
      | ok items =>
        cases har : afterRound cfg
            { s with backfilldone := true, ltVar := walkLtVar items s.ltVar,
                     ended := s.ended || e.configStopping || s.stopping } with
        | error err => simp [hw, har, Except.map]
        | ok s2 => simp [hw, har, Except.map]
    | false =>
      cases hp : cfg.perDayVolume with
      | false =>
        rw [timerStep_live (e := { e with qFull := f' }) hcd hb hp,
          timerStep_live hcd hb hp]
        simpa using liveDispatch_qFull cfg e
          (s.ended || e.configStopping || s.stopping) s e.rate2 f'
      | true =>
        cases hdef : ((match cfg.rawEventSize with
            | none => false
            | some r => decide (e.rate2 + s.previousCountLeft < r)) &&
            decide (0 < e.rate2 + s.previousCountLeft)) with
        | true =>
          rw [timerStep_defer_bool (e := { e with qFull := f' }) hcd hb hp
              (by simpa using hdef),
            timerStep_defer_bool hcd hb hp hdef]
          simp [Except.map, offerAll]
        | false =>
          rw [timerStep_perday_live (e := { e with qFull := f' }) hcd hb hp
              (by simpa using hdef),
            timerStep_perday_live hcd hb hp hdef]
          simpa using liveDispatch_qFull cfg e
            (s.ended || e.configStopping || s.stopping)
            { s with previousCountLeft := 0 } (e.rate2 + s.previousCountLeft) f'
  · rw [timerStep_sleep (e := { e with qFull := f' }) hcd, timerStep_sleep hcd]
    simp [Except.map, offerAll]

lemma timerStep_enqueued {cfg : TimerCfg} {e : TickEnv} {wf : Nat} {s : TState}
    {out : TState × List WItem × List WItem}
    (h : timerStep cfg e wf s = .ok out) :
    out.2.2 = offerAll e.qFull out.2.1 := by
  by_cases hcd : s.countdown ≤ 0
  · cases hb : (cfg.backfill && !s.backfilldone) with
    | true =>
      rw [timerStep_backfill hcd hb] at h
      split at h
      · exact Except.noConfusion h
      · split at h
        · exact Except.noConfusion h
        · injection h with h2
          subst h2
          rfl
    | false =>
      cases hp : cfg.perDayVolume with
      | false =>
        rw [timerStep_live hcd hb hp] at h
        obtain ⟨h1, h2, -⟩ := liveDispatch_spec h
        rw [h2, h1]
      | true =>
        cases hdef : ((match cfg.rawEventSize with
            | none => false
            | some r => decide (e.rate2 + s.previousCountLeft < r)) &&
            decide (0 < e.rate2 + s.previousCountLeft)) with
        | false =>
          rw [timerStep_perday_live hcd hb hp hdef] at h
          obtain ⟨h1, h2, -⟩ := liveDispatch_spec h
          rw [h2, h1]
        | true =>
          rw [timerStep_defer_bool hcd hb hp hdef] at h
          injection h with h2
          subst h2
          rfl
  · rw [timerStep_sleep hcd] at h
    injection h with h2
    subst h2
    rfl

lemma runTimer_succ_err {cfg : TimerCfg} {envs : Nat → TickEnv} {wf f t : Nat}
    {s : TState} {err : GenErr} (hse : s.ended = false)
    (hstep : timerStep cfg (envs t) wf s = .error err) :
    runTimer cfg envs wf (f + 1) t s = .error err := by
  rw [runTimer, if_neg (by simp [hse]), hstep]

lemma runTimer_succ_ok {cfg : TimerCfg} {envs : Nat → TickEnv} {wf f t : Nat}
    {s s' : TState} {built enq : List WItem} (hse : s.ended = false)
    (hstep : timerStep cfg (envs t) wf s = .ok (s', built, enq)) :
    runTimer cfg envs wf (f + 1) t s =
      (runTimer cfg envs wf f (t + 1) s').map (fun o => (o.1, built ++ o.2)) := by
  rw [runTimer, if_neg (by simp [hse]), hstep]
  cases hrec : runTimer cfg envs wf f (t + 1) s' with
  | error err => simp [hrec, Except.map]
  | ok o => cases o with
    | mk a b => simp [hrec, Except.map]

/-- Invariant driving the execution-count end condition: with no backfill,
no perdayvolume deferral, a pure count limit `N`, and no external stop, a
non-ended state always has `executions < N` and an ended state has
`executions = N` exactly. -/
lemma runTimer_count_inv {cfg : TimerCfg} {envs : Nat → TickEnv} {wf : Nat} {N : Int}
    (hb : cfg.backfill = false) (hp : cfg.perDayVolume = false)
    (hend : cfg.endCfg = some N) (hts : cfg.endts = none)
    (hstop : ∀ t, (envs t).configStopping = false) :
    ∀ (fuel t : Nat) (s sf : TState) (items : List WItem),
      (s.ended = false → s.stopping = false ∧ (s.executions : Int) < N) →
      (s.ended = true → (s.executions : Int) = N) →
      runTimer cfg envs wf fuel t s = .ok (sf, items) →
      (sf.ended = false → sf.stopping = false ∧ (sf.executions : Int) < N) ∧
      (sf.ended = true → (sf.executions : Int) = N) := by
  intro fuel
  induction fuel with
  | zero =>
    intro t s sf items h1 h2 hrun
    simp only [runTimer] at hrun
    injection hrun with hh
    injection hh with hsf hit
    subst hsf
    exact ⟨h1, h2⟩
  | succ f ih =>
    intro t s sf items h1 h2 hrun
    by_cases hse : s.ended = true
    · rw [runTimer_of_ended hse] at hrun
      injection hrun with hh
      injection hh with hsf hit
      subst hsf
      exact ⟨h1, h2⟩
    · have hsef : s.ended = false := by revert hse; cases s.ended <;> simp
      obtain ⟨hstp0, hexlt⟩ := h1 hsef
      rcases hstep : timerStep cfg (envs t) wf s with err | out
      · rw [runTimer_succ_err hsef hstep] at hrun
        exact Except.noConfusion hrun
      · obtain ⟨s', built, enq⟩ := out
        rw [runTimer_succ_ok hsef hstep] at hrun
        rw [except_map_ok] at hrun
        obtain ⟨⟨sf', rest⟩, hrec, hform⟩ := hrun
        injection hform with hsf hit
        subst hsf
        by_cases hcd : s.countdown ≤ 0
        · have hbg : (cfg.backfill && !s.backfilldone) = false := by simp [hb]
          rw [timerStep_live hcd hbg hp] at hstep
          obtain ⟨-, -, har⟩ := liveDispatch_spec hstep
          obtain ⟨-, hex, -, -, hlt, hor⟩ := afterRound_spec har
          rcases hor with ⟨hevt, hstp', hend'⟩ | ⟨hevf, hstp', hend'⟩
          · simp [evalEnd, hend, hts] at hevt
            have hexN : (s'.executions : Int) = N := by
              simp only at hex
              rw [hex]; push_cast; omega
            refine ih (t + 1) s' sf rest ?_ (fun _ => hexN) hrec
            intro hf
            rw [hf] at hend'
            exact Bool.noConfusion hend'
          · simp [evalEnd, hend, hts] at hevf
            have hstpF : s'.stopping = false := by
              rw [hstp']; exact hstp0
            have hendF : s'.ended = false := by
              rw [hend']
              simp [hsef, hstop t, hstp0]
            refine ih (t + 1) s' sf rest
              (fun _ => ⟨hstpF, by simp only at hex; rw [hex]; push_cast; omega⟩) ?_ hrec
            intro hf
            rw [hendF] at hf
            exact Bool.noConfusion hf
        · rw [timerStep_sleep hcd] at hstep
          injection hstep with hh2
          injection hh2 with hs1 hrest
          have hendF : s'.ended = false := by
            rw [← hs1]
            simp [hsef, hstop t, hstp0]
          have hstpF : s'.stopping = false := by rw [← hs1]; exact hstp0
          have hexeq : s'.executions = s.executions := by rw [← hs1]
          refine ih (t + 1) s' sf rest
            (fun _ => ⟨hstpF, by rw [hexeq]; exact hexlt⟩) ?_ hrec
          intro hf
          rw [hendF] at hf
          exact Bool.noConfusion hf

/-! ## Helper lemmas about the token store -/

lemma readH_writeH_ne (h : TokHeap) (r r' : Nat) (v : List Nat) (hne : r ≠ r') :
    (h.writeH r v).readH r' = h.readH r' := by
  simp only [TokHeap.writeH, TokHeap.readH]
  rw [if_neg (fun hh => hne hh.symm)]

lemma readH_writeH_eq (h : TokHeap) (r : Nat) (v : List Nat) :
    (h.writeH r v).readH r = v := by
  simp [TokHeap.writeH, TokHeap.readH]

lemma fanOutTok_next (count et lt : Int) (src : Nat) :
    ∀ (w : Nat) (h : TokHeap),
      ((fanOutTok count et lt src w h).1).next = h.next + w := by
  intro w
  induction w with
  | zero => intro h; simp [fanOutTok]
  | succ m ih =>
    intro h
    simp only [fanOutTok, TokHeap.allocCopy]
    rw [ih]
    simp
    omega

lemma fanOutTok_store_lt (count et lt : Int) (src : Nat) :
    ∀ (w : Nat) (h : TokHeap) (x : Nat), x < h.next →
      ((fanOutTok count et lt src w h).1).store x = h.store x := by
  intro w
  induction w with
  | zero => intro h x _; rfl
  | succ m ih =>
    intro h x hx
    simp only [fanOutTok, TokHeap.allocCopy]
    rw [ih _ x (by simp; omega)]
    simp
    omega

lemma fanOutTok_length (count et lt : Int) (src : Nat) :
    ∀ (w : Nat) (h : TokHeap), ((fanOutTok count et lt src w h).2).length = w := by
  intro w
  induction w with
  | zero => intro h; rfl
  | succ m ih =>
    intro h
    simp only [fanOutTok, TokHeap.allocCopy]
    simp [ih]

lemma fanOutTok_get (count et lt : Int) (src : Nat) :
    ∀ (w k : Nat) (h : TokHeap), k < w →
      ((fanOutTok count et lt src w h).2)[k]? =
        some ⟨count, et, lt, h.next + k⟩ := by
  intro w
  induction w with
  | zero => intro k h hk; omega
  | succ m ih =>
    intro k h hk
    cases k with
    | zero => simp [fanOutTok, TokHeap.allocCopy]
    | succ j =>
      simp only [fanOutTok, TokHeap.allocCopy, List.getElem?_cons_succ]
      rw [ih j _ (by omega)]
      simp
      omega

lemma fanOutTok_read (count et lt : Int) (src : Nat) :
    ∀ (w k : Nat) (h : TokHeap), src < h.next → k < w →
      ((fanOutTok count et lt src w h).1).readH (h.next + k) = h.readH src := by
  intro w
  induction w with
  | zero => intro k h _ hk; omega
  | succ m ih =>
    intro k h hsrc hk
    cases k with
    | zero =>
      simp only [fanOutTok, TokHeap.allocCopy, TokHeap.readH, Nat.add_zero]
      rw [fanOutTok_store_lt count et lt src m
        ⟨h.next + 1, fun x => if x = h.next then h.store src else h.store x⟩
        h.next (by simp)]
      simp
    | succ j =>
      simp only [fanOutTok, TokHeap.allocCopy, TokHeap.readH]
      have := ih j ⟨h.next + 1, fun x => if x = h.next then h.store src else h.store x⟩
        (by simp; omega) (by omega)
      simp only [TokHeap.readH] at this
      have harg : h.next + 1 + j = h.next + (j + 1) := by omega
      rw [harg] at this
      rw [this]
      rw [if_neg (by omega)]

/-! ## Claim C2 -/

/-- C2: the claim's "windows ... together cover exactly the range
[now + O, now)" is falsified at interval I = 2, offset O = -3, now = 0:
the walk produces the two windows [-3,-1) and [-1,1), whose union [-3, 1)
extends one second past `now` instead of ending at it (coverage is exact
only when I divides |O|); the window count ceil(3/2) = 2 does hold. -/
theorem c2_counterexample :
    backfillWalk 2 7 0 10 (-3) = .ok [⟨7, -3, -1⟩, ⟨7, -1, 1⟩] ∧
    (([⟨7, -3, -1⟩, ⟨7, -1, 1⟩] : List WItem).getLast?.map WItem.lt) = some 1 ∧
    (decide ((1 : Int) = 0)) = false := by
  refine ⟨by decide, by decide, by decide⟩

/-- C2 (amended): with interval I > 0 and enough fuel, the backfill walk
emits exactly `ceilSteps (now - bstart) I` work items (= ceil(|O|/I) for a
past offset O with `bstart = now + O`; zero when the offset resolves to
`now` or later); window k is [bstart + k·I, bstart + (k+1)·I) — the windows
are contiguous, non-overlapping, each of length I, they cover
[now + O, now), and the final window ends in [now, now + I) — past `now`
by less than I rather than exactly at it; `backfilldone` is never reset by
a step and is set by any step that takes the pending-backfill branch
(hence it transitions false→true exactly once). -/
theorem c2_amended :
    (∀ (I budget now bstart : Int) (fuel : Nat), 0 < I →
        (now - bstart).toNat ≤ fuel →
        backfillWalk I budget now fuel bstart =
          .ok (expectedWalk I budget bstart (ceilSteps (now - bstart) I))) ∧
    (∀ (I budget bstart : Int) (n : Nat),
        (expectedWalk I budget bstart n).length = n) ∧
    (∀ (I budget bstart : Int) (n k : Nat), k < n →
        (expectedWalk I budget bstart n)[k]? =
          some ⟨budget, bstart + k * I, bstart + (k + 1) * I⟩) ∧
    (∀ d I : Int, 0 < I → 0 < d →
        d ≤ (ceilSteps d I : Int) * I ∧ (ceilSteps d I : Int) * I < d + I ∧
          1 ≤ ceilSteps d I) ∧
    (∀ d I : Int, 0 < I → d ≤ 0 → ceilSteps d I = 0) ∧
    (∀ (cfg : TimerCfg) (e : TickEnv) (wf : Nat) (s : TState)
        (out : TState × List WItem × List WItem),
        timerStep cfg e wf s = .ok out → s.backfilldone = true →
        out.1.backfilldone = true) ∧
    (∀ (cfg : TimerCfg) (e : TickEnv) (wf : Nat) (s : TState)
        (out : TState × List WItem × List WItem),
        timerStep cfg e wf s = .ok out → s.countdown ≤ 0 →
        cfg.backfill = true → s.backfilldone = false →
        out.1.backfilldone = true) :=
  ⟨fun I budget now bstart fuel hI hf => backfillWalk_eq I budget now hI fuel bstart hf,
   fun I budget bstart n => expectedWalk_length I budget n bstart,
   fun I budget bstart n k hk => expectedWalk_get I budget n k bstart hk,
   fun _ _ hI hd => ceilSteps_bounds hI hd,
   fun _ _ hI hd => ceilSteps_nonpos hI hd,
   fun _ _ _ _ _ h hs => timerStep_backfilldone_mono h hs,
   fun _ _ _ _ _ h hcd hbf hnd => timerStep_backfill_sets h hcd hbf hnd⟩

/-- Witness for C2 (amended) at concrete inputs. -/
theorem c2_amended_witness :
    backfillWalk 2 7 0 4 (-4) =
      .ok (expectedWalk 2 7 (-4) (ceilSteps (0 - (-4)) 2)) ∧
    ceilSteps (-3) 5 = 0 ∧
    (4 : Int) ≤ (ceilSteps 4 2 : Int) * 2 :=
  ⟨c2_amended.1 2 7 0 (-4) 4 (by decide) (by decide),
   c2_amended.2.2.2.2.1 (-3) 5 (by decide) (by decide),
   (c2_amended.2.2.2.1 4 2 (by decide) (by decide)).1⟩

/-! ## Claim C3 -/

/-- C3: the claim "no new WorkItem is built or enqueued after the stop is
observed" is falsified: with the global stop flag observed set
(`configStopping = true`) at a tick boundary with `countdown ≤ 0` and a
valid budget, the same iteration still runs a full round and builds two
work items (lines 105-106 only set the loop flag; the body continues). -/
theorem c3_counterexample :
    (timerStep ⟨1, 5, false, 0, false, 2, none, none, none⟩
        ⟨true, 0, 9, 0, 1, 2, fun _ => false⟩ 0
        ⟨0, 0, false, true, 0, none, false⟩).map (fun o => o.2.1) =
      .ok [⟨9, 1, 2⟩, ⟨9, 1, 2⟩] ∧
    (decide (([⟨9, 1, 2⟩, ⟨9, 1, 2⟩] : List WItem) = [])) = false := by
  refine ⟨by decide, by decide⟩

/-- C3 (amended): when a stop flag (global or local) is observed set at a
tick boundary, the loop flag `end` is set by that iteration, so the loop
exits at the next guard check: the observing iteration may still run one
full round (building and enqueueing work items), and no later iteration
runs — from an ended state the loop performs no further step and emits no
further item. -/
theorem c3_amended :
    (∀ (cfg : TimerCfg) (e : TickEnv) (wf : Nat) (s : TState)
        (out : TState × List WItem × List WItem),
        timerStep cfg e wf s = .ok out →
        (e.configStopping = true ∨ s.stopping = true) →
        out.1.ended = true) ∧
    (∀ (cfg : TimerCfg) (envs : Nat → TickEnv) (wf fuel t : Nat) (s : TState),
        s.ended = true → runTimer cfg envs wf fuel t s = .ok (s, [])) :=
  ⟨fun _ _ _ _ _ h hs => timerStep_ended_of_stop h hs,
   fun _ _ _ _ _ _ hs => runTimer_of_ended hs⟩

/-- Witness for C3 (amended) at a concrete input. -/
theorem c3_amended_witness :
    ((⟨0, 5, true, true, 0, some 6, true⟩ : TState).ended = true) ∧
    runTimer ⟨1, 5, false, 0, false, 2, none, none, none⟩
        (fun _ => ⟨false, 0, 9, 0, 1, 2, fun _ => false⟩) 0 3 0
        ⟨0, 5, true, true, 0, some 6, true⟩ =
      .ok (⟨0, 5, true, true, 0, some 6, true⟩, []) :=
  ⟨rfl, c3_amended.2 ⟨1, 5, false, 0, false, 2, none, none, none⟩
    (fun _ => ⟨false, 0, 9, 0, 1, 2, fun _ => false⟩) 0 3 0
    ⟨0, 5, true, true, 0, some 6, true⟩ rfl⟩

/-! ## Claim C4 -/

/-- C4: queue fullness is invisible to the governor except for which items
end up enqueued: replacing the full-queue oracle changes neither the
post-round state nor the items built (the governor never blocks, never
stalls, and continues the round past a drop), and the enqueued items are
exactly the built items kept by the oracle — a sublist of the built items,
so each item is offered once and a dropped item is never retried. -/
theorem c4_queue_full_drop :
    (∀ (cfg : TimerCfg) (e : TickEnv) (wf : Nat) (s : TState) (f' : Nat → Bool),
        timerStep cfg { e with qFull := f' } wf s =
          (timerStep cfg e wf s).map (fun o => (o.1, o.2.1, offerAll f' o.2.1))) ∧
    (∀ (cfg : TimerCfg) (e : TickEnv) (wf : Nat) (s : TState)
        (out : TState × List WItem × List WItem),
        timerStep cfg e wf s = .ok out →
        out.2.2 = offerAll e.qFull out.2.1 ∧ out.2.2.Sublist out.2.1) :=
  ⟨fun cfg e wf s f' => timerStep_qFull cfg e wf s f',
   fun _ _ _ _ _ h =>
     ⟨timerStep_enqueued h, by rw [timerStep_enqueued h]; exact offerAll_sublist _ _⟩⟩

/-- Witness for C4 at a concrete input: with the first put attempt hitting
a full queue, two items are built and only the second is enqueued. -/
theorem c4_queue_full_drop_witness :
    ([⟨9, 1, 2⟩] : List WItem) =
      offerAll (fun k => k == 0) [⟨9, 1, 2⟩, ⟨9, 1, 2⟩] ∧
    ([⟨9, 1, 2⟩] : List WItem).Sublist [⟨9, 1, 2⟩, ⟨9, 1, 2⟩] :=
  c4_queue_full_drop.2 ⟨1, 5, false, 0, false, 2, none, none, none⟩
    ⟨false, 0, 9, 0, 1, 2, fun k => k == 0⟩ 0
    ⟨0, 0, false, true, 0, none, false⟩
    (⟨5, 1, false, true, 0, some 2, false⟩,
      [⟨9, 1, 2⟩, ⟨9, 1, 2⟩], [⟨9, 1, 2⟩]) (by decide)

/-! ## Claim C5 -/

/-- C5: the claim's "... and the termination conditions are evaluated for
that round" is falsified: with the byte-budget generator, an
execution-count limit of 1, a representative record size of 10 and a round
budget of 4 (positive but below the record size), the deferral branch's
`continue` (line 155) skips the end-condition check: after the round
`executions = 1` has reached the limit and the evaluation would stop the
governor (`evalEnd` returns true), yet the resulting state still has
`stopping = false` and the loop not ended. -/
theorem c5_counterexample :
    timerStep ⟨1, 5, true, 0, true, 2, some 1, none, some 10⟩
        ⟨false, 0, 4, 0, 1, 2, fun _ => false⟩ 0
        ⟨0, 0, false, true, 0, none, false⟩ =
      .ok (⟨5, 1, false, true, 4, none, false⟩, [], []) ∧
    evalEnd ⟨1, 5, true, 0, true, 2, some 1, none, some 10⟩ 1 none = .ok true := by
  refine ⟨by decide, by decide⟩

/-- C5 (amended): in the byte-budget mode, a round whose budget (second
rate call plus carried leftover) is positive but below the representative
record size stores that budget as leftover for the next round, produces no
work item, resets the countdown and increments `executions` — but skips
the termination evaluation for that round: `stopping` is left untouched
and the loop flag changes only through the stop-flag observation. -/
theorem c5_amended :
    ∀ (cfg : TimerCfg) (e : TickEnv) (wf : Nat) (s : TState) (r : Int),
      s.countdown ≤ 0 → (cfg.backfill && !s.backfilldone) = false →
      cfg.perDayVolume = true → cfg.rawEventSize = some r →
      0 < e.rate2 + s.previousCountLeft → e.rate2 + s.previousCountLeft < r →
      timerStep cfg e wf s =
        .ok ({ s with previousCountLeft := e.rate2 + s.previousCountLeft,
                      countdown := cfg.interval,
                      executions := s.executions + 1,
                      ended := s.ended || e.configStopping || s.stopping }, [], []) :=
  fun _ _ _ _ _ h1 h2 h3 h4 h5 h6 => timerStep_defer h1 h2 h3 h4 h6 h5

/-- Witness for C5 (amended) at a concrete input. -/
theorem c5_amended_witness :
    timerStep ⟨1, 5, true, 0, true, 2, some 1, none, some 10⟩
        ⟨false, 0, 3, 0, 1, 2, fun _ => false⟩ 0
        ⟨0, 0, false, true, 0, none, false⟩ =
      .ok (⟨5, 1, false, true, 3, none, false⟩, [], []) :=
  c5_amended ⟨1, 5, true, 0, true, 2, some 1, none, some 10⟩
    ⟨false, 0, 3, 0, 1, 2, fun _ => false⟩ 0
    ⟨0, 0, false, true, 0, none, false⟩ 10
    (by decide) (by decide) (by decide) (by decide) (by decide) (by decide)

/-! ## Claim C6 -/

/-- C6: the claim "if an absolute end-timestamp is configured it stops
exactly when the round's latest time reaches or exceeds that timestamp"
is falsified when the timestamp is configured without the end field: with
`endts = 0` set, `end` unset, and a round latest of 10 ≥ 0, the evaluation
(lines 200-213, guarded by `self.end != None`) does not stop the
governor. -/
theorem c6_counterexample :
    evalEnd ⟨1, 5, false, 0, false, 2, none, some 0, none⟩ 5 (some 10) = .ok false ∧
    (decide ((0 : Int) ≤ 10)) = true := by
  refine ⟨by decide, by decide⟩

/-- C6 (amended): the end-condition evaluation runs only when the `end`
field is configured; with both `end` and an end-timestamp set, it stops
exactly when the round's latest reaches or exceeds the timestamp (the
count is ignored — the timestamp takes precedence); with `end` set and no
timestamp, it stops exactly when `executions` reaches the limit N, so a
governor with no backfill, no byte-budget deferral, no external stop, and
N ≥ 1 performs at most N rounds and, when it ends, exactly N; with `end`
unset the evaluation never stops the governor, even if a timestamp alone
is set. -/
theorem c6_amended :
    (∀ (cfg : TimerCfg) (N ts : Int) (ex : Nat) (lt : Int),
        cfg.endCfg = some N → cfg.endts = some ts →
        evalEnd cfg ex (some lt) = .ok (decide (ts ≤ lt))) ∧
    (∀ (cfg : TimerCfg) (N : Int) (ex : Nat) (ltv : Option Int),
        cfg.endCfg = some N → cfg.endts = none →
        evalEnd cfg ex ltv = .ok (decide (N ≤ (ex : Int)))) ∧
    (∀ (cfg : TimerCfg) (ex : Nat) (ltv : Option Int),
        cfg.endCfg = none → evalEnd cfg ex ltv = .ok false) ∧
    (∀ (cfg : TimerCfg) (envs : Nat → TickEnv) (wf : Nat) (N : Int)
        (fuel : Nat) (s0 sf : TState) (items : List WItem),
        cfg.backfill = false → cfg.perDayVolume = false →
        cfg.endCfg = some N → cfg.endts = none →
        (∀ t, (envs t).configStopping = false) → 1 ≤ N →
        s0.executions = 0 → s0.stopping = false → s0.ended = false →
        runTimer cfg envs wf fuel 0 s0 = .ok (sf, items) →
        (sf.executions : Int) ≤ N ∧
          (sf.ended = true → (sf.executions : Int) = N)) := by
  refine ⟨?_, ?_, ?_, ?_⟩
  · intro cfg N ts ex lt h1 h2
    simp [evalEnd, h1, h2]
  · intro cfg N ex ltv h1 h2
    simp [evalEnd, h1, h2]
  · intro cfg ex ltv h1
    simp [evalEnd, h1]
  · intro cfg envs wf N fuel s0 sf items hb hp hend hts hstop hN h0 hstp0 hend0 hrun
    obtain ⟨h1, h2⟩ := runTimer_count_inv hb hp hend hts hstop fuel 0 s0 sf items
      (fun _ => ⟨hstp0, by rw [h0]; push_cast; omega⟩)
      (fun hf => (by rw [hend0] at hf; exact Bool.noConfusion hf)) hrun
    refine ⟨?_, h2⟩
    cases hse : sf.ended with
    | false => have := (h1 hse).2; omega
    | true => rw [h2 hse]

/-- Witness for C6 (amended) at concrete inputs: a timestamp evaluation,
and a one-round run under an execution-count limit of 1 that ends with
exactly one execution. -/
theorem c6_amended_witness :
    evalEnd ⟨0, 0, false, 0, false, 0, some 2, some 3, none⟩ 0 (some 5) =
      .ok (decide ((3 : Int) ≤ 5)) ∧
    (((⟨0, 1, true, true, 0, some 5, true⟩ : TState).executions : Int) ≤ 1 ∧
      ((⟨0, 1, true, true, 0, some 5, true⟩ : TState).ended = true →
        ((⟨0, 1, true, true, 0, some 5, true⟩ : TState).executions : Int) = 1)) :=
  ⟨c6_amended.1 ⟨0, 0, false, 0, false, 0, some 2, some 3, none⟩ 2 3 0 5 rfl rfl,
   c6_amended.2.2.2 ⟨1, 0, false, 0, false, 1, some 1, none, none⟩
     (fun _ => ⟨false, 1, 1, 0, 0, 5, fun _ => false⟩) 0 1 2
     ⟨0, 0, false, true, 0, none, false⟩ ⟨0, 1, true, true, 0, some 5, true⟩
     [⟨1, 0, 5⟩] rfl rfl rfl rfl (fun _ => rfl) (by decide) rfl rfl rfl (by decide)⟩

/-! ## Claim C7 -/

/-- C7: the claim "for every WorkItem the governor dispatches (backfill
items and live fan-out items alike), the item's token sequence is an
independent deep copy: mutating the tokens of one WorkItem never changes
the source sample's tokens or those of any sibling" is falsified by the
backfill items, which are built from `self.sample` itself (line 131) and
so all carry the source's token reference: in a store whose source tokens
are `[1, 2]`, writing `[9]` through the first backfill item's reference is
seen through the second item's reference. -/
theorem c7_counterexample :
    backfillItemsTok 5 [(0, 2), (2, 4)] 0 = [⟨5, 0, 2, 0⟩, ⟨5, 2, 4, 0⟩] ∧
    ((TokHeap.mk 1 (fun r => if r = 0 then [1, 2] else [])).writeH
        (⟨5, 0, 2, 0⟩ : WItemTok).tokensRef [9]).readH
      (⟨5, 2, 4, 0⟩ : WItemTok).tokensRef = [9] ∧
    (TokHeap.mk 1 (fun r => if r = 0 then [1, 2] else [])).readH
      (⟨5, 2, 4, 0⟩ : WItemTok).tokensRef = [1, 2] ∧
    (decide (([9] : List Nat) = [1, 2])) = false := by
  refine ⟨rfl, rfl, rfl, by decide⟩

/-- C7 (amended): a live round fans out exactly W work items, one per
configured worker, and each carries a freshly allocated token reference
`h.next + k` — pairwise distinct and distinct from the source's (which is
below `h.next`) — initialised to the source's current tokens, which the
fan-out leaves untouched; writing through one reference never changes what
a different reference reads, so mutating one live clone affects neither a
sibling nor the source.  Backfill items, by contrast, all carry the
source's own token reference — no copy is made for them. -/
theorem c7_amended :
    (∀ (count et lt : Int) (srcRef w : Nat) (h : TokHeap),
        ((fanOutTok count et lt srcRef w h).2).length = w) ∧
    (∀ (count et lt : Int) (srcRef w k : Nat) (h : TokHeap), k < w →
        ((fanOutTok count et lt srcRef w h).2)[k]? =
          some ⟨count, et, lt, h.next + k⟩) ∧
    (∀ (count et lt : Int) (srcRef w k : Nat) (h : TokHeap),
        srcRef < h.next → k < w →
        ((fanOutTok count et lt srcRef w h).1).readH (h.next + k) =
          h.readH srcRef ∧
        ((fanOutTok count et lt srcRef w h).1).readH srcRef = h.readH srcRef) ∧
    (∀ (h : TokHeap) (r r' : Nat) (v : List Nat), r ≠ r' →
        (h.writeH r v).readH r' = h.readH r') ∧
    (∀ (count : Int) (windows : List (Int × Int)) (srcRef : Nat) (it : WItemTok),
        it ∈ backfillItemsTok count windows srcRef → it.tokensRef = srcRef) := by
  refine ⟨?_, ?_, ?_, ?_, ?_⟩
  · intro count et lt srcRef w h
    exact fanOutTok_length count et lt srcRef w h
  · intro count et lt srcRef w k h hk
    exact fanOutTok_get count et lt srcRef w k h hk
  · intro count et lt srcRef w k h hsrc hk
    refine ⟨fanOutTok_read count et lt srcRef w k h hsrc hk, ?_⟩
    show ((fanOutTok count et lt srcRef w h).1).store srcRef = h.store srcRef
    exact fanOutTok_store_lt count et lt srcRef w h srcRef hsrc
  · intro h r r' v hne
    exact readH_writeH_ne h r r' v hne
  · intro count windows srcRef it hit
    simp only [backfillItemsTok, List.mem_map] at hit
    obtain ⟨w, -, hw⟩ := hit
    rw [← hw]

/-- Witness for C7 (amended) at a concrete input. -/
theorem c7_amended_witness :
    ((fanOutTok 9 1 2 0 2 (TokHeap.mk 1 (fun r => if r = 0 then [1, 2] else []))).2)[1]? =
      some ⟨9, 1, 2, 2⟩ ∧
    ((fanOutTok 9 1 2 0 2
        (TokHeap.mk 1 (fun r => if r = 0 then [1, 2] else []))).1).readH (1 + 1) =
      (TokHeap.mk 1 (fun r => if r = 0 then [1, 2] else [])).readH 0 :=
  ⟨c7_amended.2.1 9 1 2 0 2 1 (TokHeap.mk 1 (fun r => if r = 0 then [1, 2] else []))
    (by decide),
   (c7_amended.2.2.1 9 1 2 0 2 1 (TokHeap.mk 1 (fun r => if r = 0 then [1, 2] else []))
    (by decide) (by decide)).1⟩

/-- C8: the claim ("for every budget B ≤ 0 every policy returns an empty
batch without admitting any candidate") is falsified by the bundle policy
at budget B = 0 with pool `[3]`: the loop guard `currentSize <= size`
admits one full copy of the pool before stopping, so the batch is the whole
pool, not empty. -/
theorem c8_counterexample :
    bundleLoop [3] id 0 3 0 = .ok [3] ∧
    (decide (([3] : List Nat) = [])) = false := by
  refine ⟨by decide, by decide⟩

/-- C8 (amended): for every budget B < 0 and every candidate pool, each of
the three sizing policies returns an empty batch without admitting any
candidate; at B = 0 the bundle policy instead appends one full copy of the
pool (and the sequential policy enters its loop once but admits nothing
when every candidate is longer than the budget). -/
theorem c8_amended :
    ∀ (α : Type) (pool : List α) (rawLen : α → Nat) (pick : Nat → Nat)
      (size : Int) (fuel : Nat), size < 0 → 1 ≤ fuel →
      seqLoop pool rawLen size fuel 0 0 = .ok [] ∧
      bundleLoop pool rawLen size fuel 0 = .ok [] ∧
      randomLoop pool rawLen pick size fuel 0 0 = .ok [] :=
  fun _ pool rawLen pick size fuel hs hf =>
    ⟨seqLoop_negSize pool rawLen 0 hs hf,
     bundleLoop_negSize pool rawLen hs hf,
     randomLoop_negSize pool rawLen pick 0 (le_of_lt hs) hf⟩

/-- Witness for C8 (amended) at a concrete input. -/
theorem c8_amended_witness :
    seqLoop [4, 7] id (-1) 3 0 0 = .ok [] ∧
    bundleLoop [4, 7] id (-1) 3 0 = .ok [] ∧
    randomLoop [4, 7] id (fun _ => 1) (-1) 3 0 0 = .ok [] :=
  c8_amended Nat [4, 7] id (fun _ => 1) (-1) 3 (by decide) (by decide)

/-! ## Claim C9 -/

/-- C9: the claim ("for every budget B, any of the three sizing policies
run with an empty candidate pool terminates and returns an empty batch")
is falsified at B = 0 (sequential and bundle) and B = 1 (random): on an
empty pool the sequential branch raises ZeroDivisionError at
`linecount % linesinfile` (modelled as `crash`), the bundle branch adds a
pool total of 0 to `currentSize` forever and never terminates (modelled as
`fuelOut`), and the random branch raises ValueError at
`random.randint(0, -1)` (modelled as `crash`). -/
theorem c9_counterexample :
    seqLoop ([] : List Nat) id 0 5 0 0 = .error .crash ∧
    bundleLoop ([] : List Nat) id 0 5 0 = .error .fuelOut ∧
    randomLoop ([] : List Nat) id (fun _ => 0) 1 5 0 0 = .error .crash := by
  refine ⟨by decide, by decide, by decide⟩

/-- C9 (amended): for every budget B < 0 each of the three sizing policies
run with an empty candidate pool terminates at once with an empty batch;
with B ≥ 0 an empty pool is not handled gracefully (the sequential policy
fails on an index modulo zero, the bundle policy never terminates, and for
B > 0 the random policy fails drawing from an empty range). -/
theorem c9_amended :
    ∀ (α : Type) (rawLen : α → Nat) (pick : Nat → Nat) (size : Int)
      (fuel : Nat), size < 0 → 1 ≤ fuel →
      seqLoop ([] : List α) rawLen size fuel 0 0 = .ok [] ∧
      bundleLoop ([] : List α) rawLen size fuel 0 = .ok [] ∧
      randomLoop ([] : List α) rawLen pick size fuel 0 0 = .ok [] :=
  fun _ rawLen pick size fuel hs hf =>
    ⟨seqLoop_negSize _ rawLen 0 hs hf,
     bundleLoop_negSize _ rawLen hs hf,
     randomLoop_negSize _ rawLen pick 0 (le_of_lt hs) hf⟩

/-- Witness for C9 (amended) at a concrete input. -/
theorem c9_amended_witness :
    seqLoop ([] : List Nat) id (-2) 2 0 0 = .ok [] ∧
    bundleLoop ([] : List Nat) id (-2) 2 0 = .ok [] ∧
    randomLoop ([] : List Nat) id (fun _ => 0) (-2) 2 0 0 = .ok [] :=
  c9_amended Nat id (fun _ => 0) (-2) 2 (by decide) (by decide)

/-! ## Claim C10 -/

/-- C10: for every positive budget and non-empty candidate pool, a batch
the sequential sizing policy successfully produces has total length at
most B plus one tenth of the longest candidate's length (stated
integrally: ten times the total is at most ten times B plus the longest
length): any overshoot beyond B comes only from the last admitted record
under the 9/10 tolerance. -/
theorem c10_overshoot_bound :
    ∀ (α : Type) (pool : List α) (rawLen : α → Nat) (size : Int)
      (fuel : Nat) (out : List α), 0 < size → pool ≠ [] →
      seqLoop pool rawLen size fuel 0 0 = .ok out →
      10 * ((out.map rawLen).sum : Int) ≤ 10 * size + (maxRawLen pool rawLen : Int) := by
  intro α pool rawLen size fuel out hsize _ hout
  have := seqLoop_total_bound pool rawLen size fuel 0 0 out (by omega) hout
  omega

/-- Witness for C10 at a concrete input. -/
theorem c10_overshoot_bound_witness :
    10 * ((([300, 300, 300] : List Nat).map id).sum : Int) ≤
      10 * 1000 + (maxRawLen [300, 300, 300, 300] id : Int) :=
  c10_overshoot_bound Nat [300, 300, 300, 300] id 1000 10 [300, 300, 300]
    (by decide) (by decide) (by decide)
